import Mathlib

/-!
A shallow embedding of `src/Functions/array/FunctionArrayMapped.h`, the generic
evaluation engine that applies a user-supplied closure to one or more parallel
array columns (`FunctionArrayMapped::executeImpl`, `getReturnTypeImpl`,
`getLambdaArgumentTypes`).  External collaborators that live outside the given
source file (array columns, closure columns `ColumnFunction`, the per-operation
strategy `Impl`) are modelled from the specification's interface contracts.
Machine `size_t` values are modelled as `Nat`; element values as `Int`.
The `std::cerr` diagnostic writes of `executeImpl` are modelled by a trace
component (a `List String` of the messages, with dynamic column dumps elided);
the engine result is the first component of the returned pair.
-/

set_option autoImplicit false

namespace FunctionArrayMapped

/-- Element values manipulated by the engine (modelled as integers). -/
abbrev Value := Int

/-- Modelled from the spec: an array column is a flat data sequence plus a
non-decreasing offsets sequence; row `i` occupies `[offsets[i-1], offsets[i])`
with `offsets[-1] = 0`; `size()` is the offsets length. -/
structure ArrayColumn where
  data : List Value
  offsets : List Nat
deriving DecidableEq

/-- Modelled from the spec: a flat result column, either plain or
dictionary(low-cardinality)-encoded as indices into a dictionary. -/
inductive FlatCol where
  | plain (vals : List Value)
  | lowCard (idx : List Nat) (dict : List Value)

/-- Decode a dictionary encoding: each index is looked up in the dictionary. -/
def decodeLowCard (idx : List Nat) (dict : List Value) : List Value :=
  idx.map (fun i => dict.getD i 0)

/-- Whether a flat column is dictionary-encoded (`IColumn::lowCardinality`). -/
def FlatCol.isLowCard : FlatCol → Bool
  | .plain _ => false
  | .lowCard _ _ => true

/-- `convertToFullColumnIfLowCardinality`: resolve a dictionary encoding. -/
def FlatCol.convertToFull : FlatCol → FlatCol
  | .plain vals => .plain vals
  | .lowCard idx dict => .plain (decodeLowCard idx dict)

/-- The values of a flat column, reading through a dictionary encoding. -/
def FlatCol.vals : FlatCol → List Value
  | .plain vals => vals
  | .lowCard idx dict => decodeLowCard idx dict

/-- Per-row element counts determined by a cumulative offsets sequence
(`offsets[i] - offsets[i-1]`, with `Nat` truncation exactly as the unsigned
subtraction in the source behaves on a non-monotone sequence). -/
def offsetCounts : List Nat → Nat → List Nat
  | [], _ => []
  | o :: rest, prev => (o - prev) :: offsetCounts rest o

/-- `IColumn::replicate`: entry `i` is repeated `offsets[i] - offsets[i-1]`
times, in order. -/
def replicateByOffsets {α : Type} (xs : List α) (offsets : List Nat) : List α :=
  ((xs.zip (offsetCounts offsets 0)).map (fun p => List.replicate p.2 p.1)).flatten

/-- Sequence a list of options, failing if any entry is `none`. -/
def optionSequence {α : Type} : List (Option α) → Option (List α)
  | [] => some []
  | none :: _ => none
  | some a :: rest => (optionSequence rest).map (a :: ·)

/-- Modelled from the spec: a closure column (`ColumnFunction`) holds one
partially applied callable per row plus the argument columns captured so far;
`resultLowCard` records whether its evaluation yields a dictionary-encoded
result column. -/
structure ColumnFunction where
  fns : List (List Value → Option Value)
  captured : List (List Value)
  resultLowCard : Bool

/-- Modelled from the spec: `ColumnFunction::replicate(offsets)` broadcasts one
closure per row into one copy per array element driven by the offsets sequence
(captured columns are replicated alongside); the offsets sequence must have one
entry per row of the column. -/
def ColumnFunction.replicate (cf : ColumnFunction) (offsets : List Nat) :
    Option ColumnFunction :=
  if cf.fns.length = offsets.length then
    some ⟨replicateByOffsets cf.fns offsets,
          cf.captured.map (fun c => replicateByOffsets c offsets),
          cf.resultLowCard⟩
  else none

/-- Modelled from the spec: `ColumnFunction::appendArguments` binds additional
per-element argument columns. -/
def ColumnFunction.appendArguments (cf : ColumnFunction)
    (cols : List (List Value)) : ColumnFunction :=
  { cf with captured := cf.captured ++ cols }

/-- Modelled from the spec: `ColumnFunction::reduce` evaluates all bound calls,
yielding one flat result value per closure copy, in order; every captured
argument column must have exactly one entry per copy. -/
def ColumnFunction.reduce (cf : ColumnFunction) : Option FlatCol :=
  let n := cf.fns.length
  if ∀ c ∈ cf.captured, c.length = n then
    match optionSequence ((List.range n).map (fun i =>
        (cf.fns.getD i (fun _ => none)) (cf.captured.map (fun c => c.getD i 0)))) with
    | some raw =>
        some (if cf.resultLowCard then .lowCard (List.range raw.length) raw
              else .plain raw)
    | none => none
  else none

/-- Argument and return types, as far as the engine's type checks inspect them
(`DataTypeArray`, `DataTypeFunction`, `DataTypeLowCardinality`, `UInt8`). -/
inductive DataType where
  | uint8
  | int64
  | arrayType (nested : DataType)
  | functionType (args : List DataType) (ret : DataType)
  | lowCardinality (nested : DataType)

/-- `WhichDataType(t).isUInt8()`. -/
def DataType.isUInt8 : DataType → Bool
  | .uint8 => true
  | _ => false

/-- `recursiveRemoveLowCardinality` on types: strip dictionary encodings,
recursing through arrays. -/
def recRemoveLowCardinality : DataType → DataType
  | .lowCardinality t => recRemoveLowCardinality t
  | .arrayType t => .arrayType (recRemoveLowCardinality t)
  | t => t

/-- `removeLowCardinality` on types: strip one top-level dictionary encoding. -/
def removeLowCardinality : DataType → DataType
  | .lowCardinality t => t
  | t => t

/-- Modelled from the spec: the per-operation strategy (`Impl`) supplies the
policy predicates, the return-type rule, and the result shaping
`execute(referenceArrayColumn, mappedFlatColumn)`. -/
structure Strategy where
  needExpression : Bool
  needBoolean : Bool
  isFolding : Bool
  needOneArray : Bool
  getReturnType : DataType → DataType → DataType
  execute : ArrayColumn → List Value → List Value

/-- The error kinds thrown by the engine.  `undefined` models points where the
source has undefined behaviour (a null-pointer dereference or an out-of-range
read) or where an external collaborator rejects ill-sized inputs. -/
inductive Err where
  | illegalColumn (msg : String)
  | illegalType (msg : String)
  | sizeMismatch (msg : String)
  | argCount (msg : String)
  | undefined (msg : String)
deriving DecidableEq

/-- The `SIZES_OF_ARRAYS_DOESNT_MATCH` message, embedding the operation name. -/
def sizeMismatchMsg (fname : String) : String :=
  "Arrays passed to " ++ fname ++ " must have equal size"

/-- A block argument column, as `executeImpl` can encounter it: a plain array
column, a constant-wrapped array, a constant-wrapped dictionary-encoded array,
a flat column (e.g. the fold accumulator seed), or a closure column. -/
inductive Col where
  | arr (a : ArrayColumn)
  | constArr (elems : List Value) (rows : Nat)
  | constLowCard (idx : List Nat) (dict : List Value) (rows : Nat)
  | flat (vals : List Value)
  | fn (cf : ColumnFunction)

/-- `ColumnConst(ColumnArray)::convertToFullColumn`: the single wrapped array
value repeated once per row. -/
def constArrayMaterialize (elems : List Value) (rows : Nat) : ArrayColumn :=
  ⟨(List.replicate rows elems).flatten,
   (List.range rows).map (fun i => (i + 1) * elems.length)⟩

/-- `checkAndGetColumn<ColumnArray>`: succeeds only on a plain array column. -/
def Col.asArray : Col → Option ArrayColumn
  | .arr a => some a
  | _ => none

/-- `checkAndGetColumnConst<ColumnArray>` followed by `convertToFullColumn`
(and resolution of a dictionary encoding): succeeds only on a constant-wrapped
array. -/
def Col.asConstArray : Col → Option ArrayColumn
  | .constArr elems rows => some (constArrayMaterialize elems rows)
  | .constLowCard idx dict rows =>
      some (constArrayMaterialize (decodeLowCard idx dict) rows)
  | _ => none

/-- The values of a flat column; `none` on any other column shape (the source
would misuse such a column as an accumulator, which is undefined there). -/
def Col.flatVals : Col → Option (List Value)
  | .flat vals => some vals
  | _ => none

/-- Materialize constant/dictionary wrappers of an array column; identity on
every other column. -/
def Col.materialize : Col → Col
  | .constArr elems rows => .arr (constArrayMaterialize elems rows)
  | .constLowCard idx dict rows =>
      .arr (constArrayMaterialize (decodeLowCard idx dict) rows)
  | c => c

/-- The three `std::cerr` lines written unconditionally at the top of
`executeImpl` (dynamic values elided). -/
def traceHeader : List String :=
  [" *** FOLDING", "  isFolding(): ", "  arguments.size() = "]

/-- The four `std::cerr` lines written after argument normalization
(dynamic values elided). -/
def traceMid : List String :=
  ["  arrays.size() = ", "  column_first_array->size() = ",
   "  column_first_array->getOffsets().size() = ",
   "  column_first_array->getData().size() = "]

/-- Normalize one array argument: accept a plain array column, otherwise
materialize a constant-wrapped (possibly dictionary-encoded) array; anything
else is an `ILLEGAL_COLUMN` error (source message `X2 ...`). -/
def normalizeOne (c : Col) : Except Err ArrayColumn :=
  match c.asArray with
  | some a => .ok a
  | none =>
    match c.asConstArray with
    | some a => .ok a
    | none => .error (.illegalColumn "X2 Expected array column")

/-- Normalize the array arguments after the first, checking each offsets
sequence against the canonical one and collecting the flat data columns. -/
def normalizeRest (fname : String) (canonical : List Nat) :
    List Col → Except Err (List (List Value))
  | [] => .ok []
  | c :: rest =>
    match normalizeOne c with
    | .error e => .error e
    | .ok a =>
      if a.offsets = canonical then
        (normalizeRest fname canonical rest).map (a.data :: ·)
      else .error (.sizeMismatch (sizeMismatchMsg fname))

/-- Normalize all array arguments: the first argument's offsets become the
canonical offsets (the source compares subsequent offsets by pointer identity
first and element-wise equality as fallback; pointer identity implies equality,
so the model checks equality); returns the first normalized array and the flat
data column of every array argument, in order. -/
def normalizeArrays (fname : String) : List Col →
    Except Err (ArrayColumn × List (List Value))
  | [] => .error (.undefined "no array arguments")
  | c :: rest =>
    match normalizeOne c with
    | .error e => .error e
    | .ok first =>
      match normalizeRest fname first.offsets rest with
      | .error e => .error e
      | .ok restData => .ok (first, first.data :: restData)

/-- One closure-broadcast evaluation step, shared by the flat broadcast path
and each fold inner-loop iteration: replicate the closure column over the first
array's offsets, bind the argument columns, evaluate, resolve a
dictionary-encoded result, and shape through `Strategy.execute` with the first
array as row reference. -/
def broadcastEval (S : Strategy) (cf : ColumnFunction) (first : ArrayColumn)
    (cols : List (List Value)) : Except Err (List Value) :=
  match cf.replicate first.offsets with
  | none => .error (.undefined "replicate: offsets size does not match column size")
  | some rep =>
    match (rep.appendArguments cols).reduce with
    | none => .error (.undefined "reduce: captured column sizes do not match")
    | some lambdaResult =>
      let resolved := if lambdaResult.isLowCard
        then lambdaResult.convertToFull else lambdaResult
      .ok (S.execute first resolved.vals)

/-- The fold inner loop over one row's elements, iterated `next - cursor`
times: each iteration builds length-1 slices of every array's flat data at the
cursor plus the current accumulator slice, broadcasts the closure over the
first array's offsets (the source replicates over the full block offsets, not
a length-1 offsets sequence), evaluates, and takes the result as the new
accumulator.  Returns the last evaluation result (`res` in the source), which
stays `none` when the loop body never ran. -/
def foldIters (S : Strategy) (cf : ColumnFunction) (first : ArrayColumn)
    (arraysData : List (List Value)) :
    Nat → Nat → List Value → Option (List Value) →
    Except Err (Option (List Value)) × List String
  | 0, _, _, res => (.ok res, [])
  | n + 1, cursor, acc, _ =>
    let iterArrays := arraysData.map (fun c => (c.drop cursor).take 1) ++ [acc]
    match broadcastEval S cf first iterArrays with
    | .error e => (.error e, ["  ----- iteration  ------"])
    | .ok newAcc =>
      let r := foldIters S cf first arraysData n (cursor + 1) newAcc (some newAcc)
      (r.1, "  ----- iteration  ------" :: r.2)

/-- The fold outer loop over rows: for each row, cut a length-1 accumulator
slice from the seed column, run the inner loop up to this row's offset
boundary, then append element 0 of the last evaluation result to the output
(the source reads `(*res)[0]` even when the row had zero elements and `res`
was never assigned, which is a null dereference, modelled as `undefined`). -/
def foldRows (S : Strategy) (cf : ColumnFunction) (first : ArrayColumn)
    (arraysData : List (List Value)) (seed : List Value) :
    List Nat → Nat → Nat → List Value → Except Err (List Value) × List String
  | [], _, _, out => (.ok out, [])
  | next :: restOffs, irow, cursor, out =>
    let acc0 := (seed.drop irow).take 1
    let r := foldIters S cf first arraysData (next - cursor) cursor acc0 none
    match r.1 with
    | .error e => (.error e, "  --- row  ---" :: r.2)
    | .ok res =>
      match res with
      | none =>
        (.error (.undefined "fold: read of uninitialized res on zero-element row"),
         "  --- row  ---" :: r.2)
      | some resCol =>
        match resCol.head? with
        | none =>
          (.error (.undefined "fold: res has no rows"), "  --- row  ---" :: r.2)
        | some v =>
          let r2 := foldRows S cf first arraysData seed restOffs (irow + 1)
            (cursor + (next - cursor)) (out ++ [v])
          (r2.1, ("  --- row  ---" :: r.2) ++ r2.2)

/-- Finish the flat broadcast path: evaluate and, on success, write the final
`^^^ FOLDING` trace line before returning. -/
def finishBroadcast (S : Strategy) (cf : ColumnFunction) (first : ArrayColumn)
    (cols : List (List Value)) : Except Err (List Value) × List String :=
  match broadcastEval S cf first cols with
  | .ok v => (.ok v, traceHeader ++ traceMid ++ [" ^^^ FOLDING"])
  | .error e => (.error e, traceHeader ++ traceMid)

/-- The multi-argument branch of `executeImpl`: the first argument must be a
closure column; the trailing accumulator argument is skipped by the
normalization loop when folding; then either the row-wise fold path (guarded
by `isFolding` and the first array's total element count being positive) or
the flat broadcast path runs. -/
def multiPath (S : Strategy) (fname : String) (c0 : Col) (tail : List Col) :
    Except Err (List Value) × List String :=
  match c0 with
  | .fn cf =>
    let skip := if S.isFolding then 1 else 0
    let arrayArgs := tail.take (tail.length - skip)
    match normalizeArrays fname arrayArgs with
    | .error e => (.error e, traceHeader)
    | .ok (first, arraysData) =>
      if S.isFolding then
        match (tail.getLastD (Col.flat [])).flatVals with
        | none =>
          (.error (.undefined "unsupported accumulator column"),
           traceHeader ++ traceMid)
        | some seed =>
          if 0 < first.data.length then
            let r := foldRows S cf first arraysData seed first.offsets 0 0 []
            (r.1, traceHeader ++ traceMid ++ r.2)
          else
            finishBroadcast S cf first (arraysData ++ [seed])
      else
        finishBroadcast S cf first arraysData
  | _ =>
    (.error (.illegalType ("First argument for function " ++ fname ++
       " must be a function.")), traceHeader)

/-- The single-argument branch of `executeImpl`: accept a plain array column or
materialize a constant-wrapped one, then hand the array and its own flat data
column to `Strategy.execute`; no closure column is constructed or replicated. -/
def singlePath (S : Strategy) (c : Col) : Except Err (List Value) × List String :=
  match c.asArray with
  | some col => (.ok (S.execute col col.data), traceHeader)
  | none =>
    match c.asConstArray with
    | some col => (.ok (S.execute col col.data), traceHeader)
    | none => (.error (.illegalColumn "X1 Expected array column"), traceHeader)

/-- `FunctionArrayMapped::executeImpl`: the result column (or error) together
with the diagnostic trace the source writes to `std::cerr`. -/
def executeImpl (S : Strategy) (fname : String) (args : List Col) :
    Except Err (List Value) × List String :=
  match args with
  | [] => (.error (.undefined "executeImpl on empty arguments"), traceHeader)
  | [c] => singlePath S c
  | c0 :: tail => multiPath S fname c0 tail

/-- The computed lambda argument types for the array arguments (positions are
1-based plus one for the closure argument itself, hence the counter starts at
2 in the caller). -/
def lambdaNestedTypes (fname : String) : Nat → List DataType →
    Except Err (List DataType)
  | _, [] => .ok []
  | i, t :: rest =>
    match t with
    | .arrayType nt =>
      (lambdaNestedTypes fname (i + 1) rest).map (recRemoveLowCardinality nt :: ·)
    | _ =>
      .error (.illegalType ("Argument " ++ toString i ++ " of function " ++
        fname ++ " must be array."))

/-- `FunctionArrayMapped::getLambdaArgumentTypes`: computes the argument types
assigned to the lambda expression (the source then rewrites `arguments[0]` to a
function type over these); when folding, the last lambda argument type is the
trailing accumulator argument's own type. -/
def getLambdaArgumentTypes (S : Strategy) (fname : String)
    (argTypes : List DataType) : Except Err (List DataType) :=
  if argTypes.length = 0 then
    .error (.argCount ("Function " ++ fname ++
      " needs at least one argument; passed " ++ toString argTypes.length ++ "."))
  else if argTypes.length = 1 then
    .error (.argCount ("Function " ++ fname ++ " needs at least one array argument."))
  else
    let skip := if S.isFolding then 1 else 0
    let n := argTypes.length - 1
    match lambdaNestedTypes fname 2 ((argTypes.drop 1).take (n - skip)) with
    | .error e => .error e
    | .ok nested =>
      let full := if S.isFolding then nested ++ [argTypes.getLastD .uint8] else nested
      match argTypes.head? with
      | some (.functionType fargs _) =>
        if fargs.length = full.length then .ok full
        else
          .error (.illegalType ("First argument for this overload of " ++ fname ++
            " must be a function with " ++ toString full.length ++ " arguments."))
      | _ =>
        .error (.illegalType ("First argument for this overload of " ++ fname ++
          " must be a function with " ++ toString full.length ++ " arguments."))

/-- `FunctionArrayMapped::getReturnTypeImpl`: arity check (minimum two
arguments when the operation needs an expression, one otherwise), the
single-array overload's checks, and the general overload's checks. -/
def getReturnTypeImpl (S : Strategy) (fname : String)
    (argTypes : List DataType) : Except Err DataType :=
  let minArgs : Nat := if S.needExpression then 2 else 1
  if argTypes.length < minArgs then
    .error (.argCount ("Function " ++ fname ++ " needs at least " ++
      toString minArgs ++ " argument; passed " ++ toString argTypes.length ++ "."))
  else
    match argTypes with
    | [t] =>
      match t with
      | .arrayType nested =>
        if S.needBoolean && !nested.isUInt8 then
          .error (.illegalType ("The only argument for function " ++ fname ++
            " must be array of UInt8."))
        else .ok (S.getReturnType nested nested)
      | _ =>
        .error (.illegalType ("The only argument for function " ++ fname ++
          " must be array."))
    | _ =>
      if 2 < argTypes.length ∧ S.needOneArray then
        .error (.argCount ("Function " ++ fname ++ " needs one array argument."))
      else
        match argTypes.head? with
        | some (.functionType _ fret) =>
          let ret := removeLowCardinality fret
          if S.needBoolean && !ret.isUInt8 then
            .error (.illegalType ("Expression for function " ++ fname ++
              " must return UInt8."))
          else if S.isFolding then
            .ok (S.getReturnType ret (argTypes.getLastD .uint8))
          else
            match argTypes.getD 1 .uint8 with
            | .arrayType nested => .ok (S.getReturnType ret nested)
            | _ => .error (.undefined "second argument is not an array type")
        | _ =>
          .error (.illegalType ("First argument for function " ++ fname ++
            " must be a function."))

/-- Modelled from the spec: the fold strategy (`arrayFold`'s `Impl`, not part
of the given source file) folds, needs an expression, returns the accumulator
type, and its `execute` yields the mapped (new accumulator) column unchanged. -/
def foldStrategy : Strategy :=
  ⟨true, false, true, false, fun _ accType => accType, fun _ mapped => mapped⟩

/-- Modelled from the spec: an element-wise transform strategy (`arrayMap`'s
`Impl`, not part of the given source file): not folding, needs an expression,
returns an array of the expression type, and its `execute` re-wraps the mapped
flat column (represented here by the mapped values themselves). -/
def mapStrategy : Strategy :=
  ⟨true, false, false, false, fun retType _ => .arrayType retType,
   fun _ mapped => mapped⟩

/-- A closure column of `n` copies of the identity closure `x -> x`. -/
def idClosureColumn (n : Nat) : ColumnFunction :=
  ⟨List.replicate n (fun l => l.head?), [], false⟩

/-- A closure column of `n` copies of the fold closure `(x, acc) -> acc + x`. -/
def addClosure : List Value → Option Value
  | [x, a] => some (a + x)
  | _ => none

/-- A closure column of `n` copies of `addClosure`. -/
def cfAdd (n : Nat) : ColumnFunction :=
  ⟨List.replicate n addClosure, [], false⟩

/-- The specification's fold contract (for one zipped array), stated from its
words for comparison with the engine: for each row with elements
`e_0 ... e_(k-1)` and seed `a`, compute `acc = a` and `acc = closure(e_j, acc)`
for each element in order; the row's result is the final `acc`; a zero-element
row propagates the seed unchanged. -/
def specContractFold (closure : List Value → Option Value)
    (rows : List (List Value)) (seeds : List Value) : Option (List Value) :=
  optionSequence ((rows.zip seeds).map (fun p =>
    p.1.foldlM (fun acc e => closure [e, acc]) p.2))

/-! Helper lemmas about the external-collaborator models. -/

theorem replicate_zip_counts {α : Type} (x : α) :
    ∀ (offs : List Nat) (prev : Nat),
    (((List.replicate offs.length x).zip (offsetCounts offs prev)).map
      (fun p => List.replicate p.2 p.1)).flatten =
      List.replicate (offsetCounts offs prev).sum x
  | [], _ => rfl
  | o :: rest, prev => by
    simp only [List.length_cons, List.replicate_succ, offsetCounts,
      List.zip_cons_cons, List.map_cons, List.flatten_cons, List.sum_cons]
    rw [replicate_zip_counts x rest o, ← List.replicate_add]

theorem replicateByOffsets_replicate {α : Type} (x : α) (offs : List Nat) :
    replicateByOffsets (List.replicate offs.length x) offs =
      List.replicate (offsetCounts offs 0).sum x :=
  replicate_zip_counts x offs 0

theorem repl_len_aux {α : Type} :
    ∀ (xs : List α) (offs : List Nat) (prev : Nat), xs.length = offs.length →
    ((((xs.zip (offsetCounts offs prev)).map
      (fun p => List.replicate p.2 p.1)).flatten).length = (offsetCounts offs prev).sum)
  | [], [], _, _ => rfl
  | [], _ :: _, _, h => by simp at h
  | _ :: _, [], _, h => by simp at h
  | x :: xs, o :: rest, prev, h => by
    simp only [offsetCounts, List.zip_cons_cons, List.map_cons, List.flatten_cons,
      List.length_append, List.length_replicate, List.sum_cons]
    rw [repl_len_aux xs rest o (by simpa using h)]

theorem replicateByOffsets_length {α : Type} (xs : List α) (offs : List Nat)
    (h : xs.length = offs.length) :
    (replicateByOffsets xs offs).length = (offsetCounts offs 0).sum :=
  repl_len_aux xs offs 0 h

theorem getD_replicate {α : Type} (x d : α) :
    ∀ (n i : Nat), i < n → (List.replicate n x).getD i d = x
  | 0, i, h => absurd h (Nat.not_lt_zero i)
  | _ + 1, 0, _ => rfl
  | n + 1, i + 1, h => getD_replicate x d n i (Nat.lt_of_succ_lt_succ h)

theorem optionSequence_map_some {α β : Type} (f : α → β) :
    ∀ (l : List α), optionSequence (l.map (fun a => some (f a))) = some (l.map f)
  | [] => rfl
  | a :: l => by
    simp only [List.map_cons, optionSequence, optionSequence_map_some f l]
    rfl

theorem range_map_getD {α : Type} (d : α) :
    ∀ (l : List α), (List.range l.length).map (fun i => l.getD i d) = l
  | [] => rfl
  | a :: l => by
    rw [List.length_cons, List.range_succ_eq_map]
    simp only [List.map_cons, List.map_map]
    refine congrArg (a :: ·) ?_
    rw [List.map_congr_left (fun i _ => rfl : ∀ i ∈ List.range l.length,
      ((fun i => (a :: l).getD i d) ∘ (· + 1)) i = l.getD i d)]
    exact range_map_getD d l

theorem decodeLowCard_range (l : List Value) :
    decodeLowCard (List.range l.length) l = l :=
  range_map_getD 0 l

/-! Path lemmas about the engine. -/

theorem broadcastEval_eval (S : Strategy) (cf : ColumnFunction)
    (f : List Value → Option Value) (first : ArrayColumn) (cols : List (List Value))
    (hfns : cf.fns = List.replicate first.offsets.length f)
    (hcap : cf.captured = [])
    (hlen : ∀ c ∈ cols, c.length = (offsetCounts first.offsets 0).sum) :
    broadcastEval S cf first cols =
      match optionSequence ((List.range ((offsetCounts first.offsets 0).sum)).map
          (fun i => f (cols.map (fun c => c.getD i 0)))) with
      | some raw => .ok (S.execute first raw)
      | none => .error (.undefined "reduce: captured column sizes do not match") := by
  have hlen1 : cf.fns.length = first.offsets.length := by
    rw [hfns, List.length_replicate]
  unfold broadcastEval ColumnFunction.replicate
  rw [if_pos hlen1]
  simp only [ColumnFunction.appendArguments, ColumnFunction.reduce, hfns, hcap,
    List.map_nil, List.nil_append, replicateByOffsets_replicate, List.length_replicate]
  rw [if_pos hlen]
  rw [List.map_congr_left (fun i hi =>
    congrArg (fun g => g (cols.map (fun c => c.getD i 0)))
      (getD_replicate f (fun _ => none) _ i (List.mem_range.mp hi)))]
  cases hseq : optionSequence ((List.range ((offsetCounts first.offsets 0).sum)).map
      (fun i => f (cols.map (fun c => c.getD i 0)))) with
  | none => rfl
  | some raw =>
    cases hlc : cf.resultLowCard with
    | false => rfl
    | true =>
      simp only [FlatCol.isLowCard, FlatCol.convertToFull, FlatCol.vals,
        decodeLowCard_range, if_true]

theorem normalizeRest_ok (fname : String) (canonical : List Nat) :
    ∀ (xs : List ArrayColumn), (∀ a ∈ xs, a.offsets = canonical) →
    normalizeRest fname canonical (xs.map Col.arr) = .ok (xs.map ArrayColumn.data)
  | [], _ => rfl
  | x :: xs, h => by
    simp only [List.map_cons, normalizeRest, normalizeOne, Col.asArray]
    rw [if_pos (h x (List.mem_cons_self x xs))]
    rw [normalizeRest_ok fname canonical xs (fun a ha => h a (List.mem_cons_of_mem x ha))]
    rfl

theorem normalizeRest_mismatch (fname : String) (canonical : List Nat) :
    ∀ (xs : List ArrayColumn), (∃ a ∈ xs, a.offsets ≠ canonical) →
    normalizeRest fname canonical (xs.map Col.arr) =
      .error (.sizeMismatch (sizeMismatchMsg fname))
  | [], h => absurd h (by simp)
  | x :: xs, h => by
    simp only [List.map_cons, normalizeRest, normalizeOne, Col.asArray]
    by_cases hx : x.offsets = canonical
    · rw [if_pos hx]
      have hxs : ∃ a ∈ xs, a.offsets ≠ canonical := by
        obtain ⟨a, ha, hne⟩ := h
        rcases List.mem_cons.mp ha with rfl | ha2
        · exact absurd hx hne
        · exact ⟨a, ha2, hne⟩
      rw [normalizeRest_mismatch fname canonical xs hxs]
      rfl
    · rw [if_neg hx]

theorem normalizeArrays_ok (fname : String) (a1 : ArrayColumn)
    (rest : List ArrayColumn) (heq : ∀ a ∈ rest, a.offsets = a1.offsets) :
    normalizeArrays fname ((a1 :: rest).map Col.arr) =
      .ok (a1, (a1 :: rest).map ArrayColumn.data) := by
  simp only [List.map_cons, normalizeArrays, normalizeOne, Col.asArray]
  rw [normalizeRest_ok fname a1.offsets rest heq]

theorem normalizeArrays_mismatch (fname : String) (a1 : ArrayColumn)
    (rest : List ArrayColumn) (h : ∃ a ∈ rest, a.offsets ≠ a1.offsets) :
    normalizeArrays fname ((a1 :: rest).map Col.arr) =
      .error (.sizeMismatch (sizeMismatchMsg fname)) := by
  simp only [List.map_cons, normalizeArrays, normalizeOne, Col.asArray]
  rw [normalizeRest_mismatch fname a1.offsets rest h]

theorem finishBroadcast_fst (S : Strategy) (cf : ColumnFunction)
    (first : ArrayColumn) (cols : List (List Value)) :
    (finishBroadcast S cf first cols).1 = broadcastEval S cf first cols := by
  unfold finishBroadcast
  cases broadcastEval S cf first cols <;> rfl

theorem executeImpl_nonfold (S : Strategy) (fname : String) (cf : ColumnFunction)
    (a1 : ArrayColumn) (rest : List ArrayColumn) (hnf : S.isFolding = false)
    (heq : ∀ a ∈ rest, a.offsets = a1.offsets) :
    (executeImpl S fname (.fn cf :: (a1 :: rest).map Col.arr)).1 =
      broadcastEval S cf a1 ((a1 :: rest).map ArrayColumn.data) := by
  simp only [List.map_cons, executeImpl, multiPath, hnf, Bool.false_eq_true,
    if_false, Nat.sub_zero, List.take_length]
  rw [show (Col.arr a1 :: rest.map Col.arr) = (a1 :: rest).map Col.arr from rfl,
    normalizeArrays_ok fname a1 rest heq]
  exact finishBroadcast_fst S cf a1 ((a1 :: rest).map ArrayColumn.data)

theorem getLastD_append_singleton {α : Type} (l : List α) (a d : α) :
    (l ++ [a]).getLastD d = a := by
  induction l with
  | nil => rfl
  | cons x xs ih =>
    cases xs with
    | nil => rfl
    | cons y ys => simpa using ih

theorem broadcastEval_error_undefined (S : Strategy) (cf : ColumnFunction)
    (first : ArrayColumn) (cols : List (List Value)) (e : Err)
    (h : broadcastEval S cf first cols = .error e) : ∃ msg, e = Err.undefined msg := by
  unfold broadcastEval at h
  cases hrep : cf.replicate first.offsets with
  | none =>
    rw [hrep] at h
    injection h with h2
    exact ⟨_, h2.symm⟩
  | some rep =>
    rw [hrep] at h
    dsimp only at h
    cases hred : (rep.appendArguments cols).reduce with
    | none =>
      rw [hred] at h
      injection h with h2
      exact ⟨_, h2.symm⟩
    | some lr =>
      rw [hred] at h
      exact Except.noConfusion h

theorem foldIters_error_undefined (S : Strategy) (cf : ColumnFunction)
    (first : ArrayColumn) (arraysData : List (List Value)) :
    ∀ (n cursor : Nat) (acc : List Value) (res0 : Option (List Value)) (e : Err),
    (foldIters S cf first arraysData n cursor acc res0).1 = .error e →
    ∃ msg, e = Err.undefined msg
  | 0, cursor, acc, res0, e => by
    intro h
    exact Except.noConfusion h
  | n + 1, cursor, acc, res0, e => by
    intro h
    simp only [foldIters] at h
    cases hb : broadcastEval S cf first
        (arraysData.map (fun c => (c.drop cursor).take 1) ++ [acc]) with
    | error e2 =>
      rw [hb] at h
      injection h with h2
      exact h2 ▸ broadcastEval_error_undefined S cf first _ e2 hb
    | ok newAcc =>
      rw [hb] at h
      exact foldIters_error_undefined S cf first arraysData n (cursor + 1) newAcc
        (some newAcc) e h

theorem foldRows_error_undefined (S : Strategy) (cf : ColumnFunction)
    (first : ArrayColumn) (arraysData : List (List Value)) (seed : List Value) :
    ∀ (offs : List Nat) (irow cursor : Nat) (out : List Value) (e : Err),
    (foldRows S cf first arraysData seed offs irow cursor out).1 = .error e →
    ∃ msg, e = Err.undefined msg
  | [], _, _, _, e => by
    intro h
    exact Except.noConfusion h
  | next :: restOffs, irow, cursor, out, e => by
    intro h
    simp only [foldRows] at h
    cases hr : (foldIters S cf first arraysData (next - cursor) cursor
        ((seed.drop irow).take 1) none).1 with
    | error e2 =>
      rw [hr] at h
      injection h with h2
      exact h2 ▸ foldIters_error_undefined S cf first arraysData _ _ _ _ e2 hr
    | ok res =>
      rw [hr] at h
      cases res with
      | none =>
        injection h with h2
        exact ⟨_, h2.symm⟩
      | some resCol =>
        dsimp only at h
        cases hh : resCol.head? with
        | none =>
          rw [hh] at h
          injection h with h2
          exact ⟨_, h2.symm⟩
        | some v =>
          rw [hh] at h
          exact foldRows_error_undefined S cf first arraysData seed restOffs
            (irow + 1) (cursor + (next - cursor)) (out ++ [v]) e h

/-! Claim theorems. -/

/-- C4: with two or more zipped array arguments, the first array's offsets are
canonical and every subsequent array's offsets are checked against them (the
source compares by pointer identity first with element-wise equality as
fallback; identity implies equality, so the semantics is the equality check):
any mismatch — per-row element counts differing even when totals coincide is a
special case of differing offsets sequences — raises the `SizeMismatch` error
naming the operation, and when all offsets agree no `SizeMismatch` error can
arise, in particular never from the trailing fold accumulator argument, which
is excluded from the check. -/
theorem c4_offsets_validation (S : Strategy) (fname : String) (cf : ColumnFunction)
    (a1 : ArrayColumn) (rest : List ArrayColumn) (accPart : List Col)
    (hacc : accPart.length = if S.isFolding then 1 else 0) :
    ((∃ a ∈ rest, a.offsets ≠ a1.offsets) →
      (executeImpl S fname (.fn cf :: ((a1 :: rest).map Col.arr ++ accPart))).1 =
        .error (.sizeMismatch (sizeMismatchMsg fname))) ∧
    ((∀ a ∈ rest, a.offsets = a1.offsets) →
      ∀ m, (executeImpl S fname (.fn cf :: ((a1 :: rest).map Col.arr ++ accPart))).1 ≠
        .error (.sizeMismatch m)) := by
  have hcons : (a1 :: rest).map Col.arr ++ accPart
      = Col.arr a1 :: (rest.map Col.arr ++ accPart) := by simp
  have htake : (Col.arr a1 :: (rest.map Col.arr ++ accPart)).take
      ((Col.arr a1 :: (rest.map Col.arr ++ accPart)).length -
        (if S.isFolding then 1 else 0)) = (a1 :: rest).map Col.arr := by
    rw [← hacc, ← hcons]
    rw [show ((a1 :: rest).map Col.arr ++ accPart).length - accPart.length
        = ((a1 :: rest).map Col.arr).length by simp; omega]
    exact List.take_left _ _
  constructor
  · intro hmis
    rw [hcons]
    show (multiPath S fname (.fn cf) (Col.arr a1 :: (rest.map Col.arr ++ accPart))).1 = _
    simp only [multiPath]
    rw [htake, normalizeArrays_mismatch fname a1 rest hmis]
  · intro hall m hcontra
    rw [hcons] at hcontra
    replace hcontra : (multiPath S fname (.fn cf)
        (Col.arr a1 :: (rest.map Col.arr ++ accPart))).1 = .error (.sizeMismatch m) :=
      hcontra
    simp only [multiPath] at hcontra
    rw [htake, normalizeArrays_ok fname a1 rest hall] at hcontra
    dsimp only at hcontra
    cases hfold : S.isFolding with
    | false =>
      rw [hfold] at hcontra
      simp only [Bool.false_eq_true, if_false, finishBroadcast_fst] at hcontra
      obtain ⟨msg, hmsg⟩ := broadcastEval_error_undefined S cf a1 _ _ hcontra
      cases hmsg
    | true =>
      rw [hfold] at hcontra
      simp only [if_true] at hcontra
      obtain ⟨c, hc⟩ := List.length_eq_one.mp (hacc.trans (by rw [hfold]; rfl))
      subst hc
      rw [show (Col.arr a1 :: (rest.map Col.arr ++ [c])).getLastD (Col.flat [])
          = c from by
        rw [show Col.arr a1 :: (rest.map Col.arr ++ [c])
            = (Col.arr a1 :: rest.map Col.arr) ++ [c] by simp]
        exact getLastD_append_singleton _ c _] at hcontra
      cases hfv : c.flatVals with
      | none =>
        rw [hfv] at hcontra
        injection hcontra with h2
        cases h2
      | some seed =>
        rw [hfv] at hcontra
        dsimp only at hcontra
        by_cases hpos : 0 < a1.data.length
        · rw [if_pos hpos] at hcontra
          obtain ⟨msg, hmsg⟩ := foldRows_error_undefined S cf a1 _ seed
            a1.offsets 0 0 [] _ hcontra
          cases hmsg
        · rw [if_neg hpos, finishBroadcast_fst] at hcontra
          obtain ⟨msg, hmsg⟩ := broadcastEval_error_undefined S cf a1 _ _ hcontra
          cases hmsg

/-- Witness for C4: two zipped arrays whose totals coincide (two elements each)
but whose per-row counts differ raise `SizeMismatch` naming `arrayMap`; with
agreeing offsets no `SizeMismatch` arises. -/
theorem c4_offsets_validation_witness :
    (executeImpl mapStrategy "arrayMap"
      [.fn (cfAdd 1), .arr ⟨[1, 2], [2]⟩, .arr ⟨[4, 5], [1, 2]⟩]).1 =
      .error (.sizeMismatch (sizeMismatchMsg "arrayMap")) ∧
    (∀ m, (executeImpl mapStrategy "arrayMap"
      [.fn (cfAdd 1), .arr ⟨[1, 2], [2]⟩, .arr ⟨[4, 5], [2]⟩]).1 ≠
      .error (.sizeMismatch m)) := by
  constructor
  · exact (c4_offsets_validation mapStrategy "arrayMap" (cfAdd 1) ⟨[1, 2], [2]⟩
      [⟨[4, 5], [1, 2]⟩] [] rfl).1
      ⟨⟨[4, 5], [1, 2]⟩, List.mem_singleton.mpr rfl, by decide⟩
  · exact (c4_offsets_validation mapStrategy "arrayMap" (cfAdd 1) ⟨[1, 2], [2]⟩
      [⟨[4, 5], [2]⟩] [] rfl).2
      (fun a ha => by rw [List.mem_singleton.mp ha])

/-- C6: in the non-fold flat broadcast path the closure is broadcast once per
array element over the canonical offsets, receives each array's flat data
column as per-element arguments (in argument order), and yields one result per
element: the mapped column handed to `Strategy.execute` together with the
first array has length equal to the sum of per-row element counts, in
row-major then intra-row element order; the theorem holds for an arbitrary
`cf.resultLowCard`, so a dictionary-encoded evaluation result is resolved to
plain form before `Strategy.execute`. -/
theorem c6_flat_broadcast (S : Strategy) (fname : String) (cf : ColumnFunction)
    (g : List Value → Value) (a1 : ArrayColumn) (rest : List ArrayColumn)
    (hnf : S.isFolding = false)
    (hfns : cf.fns = List.replicate a1.offsets.length (fun l => some (g l)))
    (hcap : cf.captured = [])
    (heq : ∀ a ∈ rest, a.offsets = a1.offsets)
    (hlen : ∀ a ∈ a1 :: rest, a.data.length = (offsetCounts a1.offsets 0).sum) :
    (executeImpl S fname (.fn cf :: (a1 :: rest).map Col.arr)).1 =
      .ok (S.execute a1 ((List.range ((offsetCounts a1.offsets 0).sum)).map
        (fun i => g ((a1 :: rest).map (fun a => a.data.getD i 0))))) := by
  rw [executeImpl_nonfold S fname cf a1 rest hnf heq]
  rw [broadcastEval_eval S cf (fun l => some (g l)) a1 _ hfns hcap
    (fun c hc => by
      obtain ⟨a, ha, rfl⟩ := List.mem_map.mp hc
      exact hlen a ha)]
  rw [show ((List.range ((offsetCounts a1.offsets 0).sum)).map
      (fun i => (fun l => some (g l))
        (((a1 :: rest).map ArrayColumn.data).map (fun c => c.getD i 0))))
      = ((List.range ((offsetCounts a1.offsets 0).sum)).map
        (fun i => some ((fun j => g ((a1 :: rest).map (fun a => a.data.getD j 0))) i)))
      from List.map_congr_left (fun i _ => by
        simp [List.map_map, Function.comp_def])]
  rw [optionSequence_map_some
    (fun j => g ((a1 :: rest).map (fun a => a.data.getD j 0)))
    (List.range ((offsetCounts a1.offsets 0).sum))]

/-- Witness for C6: mapping `x -> 2 * x` over `[1, 2, 3]` yields `[2, 4, 6]`. -/
theorem c6_flat_broadcast_witness :
    (executeImpl mapStrategy "arrayMap"
      [.fn ⟨List.replicate 1 (fun l => some (2 * l.getD 0 0)), [], false⟩,
       .arr ⟨[1, 2, 3], [3]⟩]).1 = .ok [2, 4, 6] := by
  have h := c6_flat_broadcast mapStrategy "arrayMap"
    ⟨List.replicate 1 (fun l => some (2 * l.getD 0 0)), [], false⟩
    (fun l => 2 * l.getD 0 0) ⟨[1, 2, 3], [3]⟩ [] rfl rfl rfl
    (fun a ha => absurd ha (List.not_mem_nil a))
    (fun a ha => by rw [List.mem_singleton.mp ha]; rfl)
  exact h.trans rfl

/-- C10: with exactly one argument the engine materializes a constant wrapper
if present and returns `Strategy.execute` applied to the array and its own
flat data column, constructing no closure; this equals mapping the identity
closure over the array through the general broadcast path. -/
theorem c10_single_array (S : Strategy) (fname : String) (a : ArrayColumn)
    (hnf : S.isFolding = false)
    (hlen : a.data.length = (offsetCounts a.offsets 0).sum) :
    (executeImpl S fname [.arr a]).1 = .ok (S.execute a a.data) ∧
    (executeImpl S fname [.constArr a.data a.offsets.length]).1 =
      .ok (S.execute (constArrayMaterialize a.data a.offsets.length)
        (constArrayMaterialize a.data a.offsets.length).data) ∧
    (executeImpl S fname [.fn (idClosureColumn a.offsets.length), .arr a]).1 =
      .ok (S.execute a a.data) := by
  refine ⟨rfl, rfl, ?_⟩
  show (executeImpl S fname
    (.fn (idClosureColumn a.offsets.length) :: (a :: []).map Col.arr)).1 = _
  rw [executeImpl_nonfold S fname (idClosureColumn a.offsets.length) a [] hnf
    (fun x hx => absurd hx (List.not_mem_nil x))]
  rw [broadcastEval_eval S (idClosureColumn a.offsets.length) (fun l => l.head?)
    a _ rfl rfl
    (fun c hc => by
      rw [List.mem_singleton.mp hc]
      exact hlen)]
  rw [show ((List.range ((offsetCounts a.offsets 0).sum)).map
      (fun i => (fun l => l.head?)
        (((a :: []).map ArrayColumn.data).map (fun c => c.getD i 0))))
      = ((List.range ((offsetCounts a.offsets 0).sum)).map
        (fun i => some ((fun j => a.data.getD j 0) i)))
      from List.map_congr_left (fun i _ => rfl)]
  rw [optionSequence_map_some (fun j => a.data.getD j 0)
    (List.range ((offsetCounts a.offsets 0).sum))]
  rw [show (List.range ((offsetCounts a.offsets 0).sum)).map (fun j => a.data.getD j 0)
      = a.data from by rw [← hlen]; exact range_map_getD 0 a.data]

/-- Witness for C10: the single-array overload on `[1, 2, 3]`, its constant
wrapping, and the identity-closure mapping all yield the array's own data. -/
theorem c10_single_array_witness :
    (executeImpl mapStrategy "arrayMap" [.arr ⟨[1, 2, 3], [3]⟩]).1 = .ok [1, 2, 3] ∧
    (executeImpl mapStrategy "arrayMap"
      [.fn (idClosureColumn 1), .arr ⟨[1, 2, 3], [3]⟩]).1 = .ok [1, 2, 3] := by
  have h := c10_single_array mapStrategy "arrayMap" ⟨[1, 2, 3], [3]⟩ rfl rfl
  exact ⟨h.1.trans rfl, h.2.2.trans rfl⟩

/-- C9: with fewer arguments than the operation's minimum arity (two when the
operation needs an expression, one otherwise) the engine raises the
`NUMBER_OF_ARGUMENTS_DOESNT_MATCH` error naming the operation and returns no
result; `getLambdaArgumentTypes` likewise rejects an empty argument list. -/
theorem c9_argument_count (S : Strategy) (fname : String) (ts : List DataType)
    (h : ts.length < if S.needExpression then 2 else 1) :
    getReturnTypeImpl S fname ts =
      .error (.argCount ("Function " ++ fname ++ " needs at least " ++
        toString (if S.needExpression then (2 : Nat) else 1) ++ " argument; passed " ++
        toString ts.length ++ ".")) ∧
    getLambdaArgumentTypes S fname [] =
      .error (.argCount ("Function " ++ fname ++
        " needs at least one argument; passed " ++ toString (0 : Nat) ++ ".")) := by
  constructor
  · simp only [getReturnTypeImpl]
    rw [if_pos h]
  · rfl

/-- Witness for C9: `arrayMap` called with no arguments. -/
theorem c9_argument_count_witness :
    getReturnTypeImpl mapStrategy "arrayMap" [] =
      .error (.argCount "Function arrayMap needs at least 2 argument; passed 0.") := by
  exact ((c9_argument_count mapStrategy "arrayMap" [] (by decide)).1).trans rfl

theorem normalizeOne_materialize (c : Col) :
    normalizeOne c.materialize = normalizeOne c := by
  cases c <;> rfl

theorem flatVals_materialize (c : Col) :
    c.materialize.flatVals = c.flatVals := by
  cases c <;> rfl

theorem getLastD_map {α β : Type} (f : α → β) :
    ∀ (l : List α) (d : α), (l.map f).getLastD (f d) = f (l.getLastD d)
  | [], _ => rfl
  | a :: l, d => by
    simp only [List.map_cons, List.getLastD_cons]
    exact getLastD_map f l a

theorem normalizeRest_materialize (fname : String) (canonical : List Nat) :
    ∀ (xs : List Col), normalizeRest fname canonical (xs.map Col.materialize) =
      normalizeRest fname canonical xs
  | [] => rfl
  | c :: xs => by
    simp only [List.map_cons, normalizeRest, normalizeOne_materialize]
    cases normalizeOne c with
    | error e => rfl
    | ok a =>
      dsimp only
      rw [normalizeRest_materialize fname canonical xs]

theorem normalizeArrays_materialize (fname : String) :
    ∀ (xs : List Col), normalizeArrays fname (xs.map Col.materialize) =
      normalizeArrays fname xs
  | [] => rfl
  | c :: xs => by
    simp only [List.map_cons, normalizeArrays, normalizeOne_materialize]
    cases normalizeOne c with
    | error e => rfl
    | ok first =>
      dsimp only
      rw [normalizeRest_materialize fname first.offsets xs]

theorem getLastD_map_flat (tail : List Col) :
    (tail.map Col.materialize).getLastD (Col.flat []) =
      (tail.getLastD (Col.flat [])).materialize :=
  getLastD_map Col.materialize tail (Col.flat [])

theorem multiPath_materialize (S : Strategy) (fname : String) (c0 : Col)
    (tail : List Col) :
    multiPath S fname c0.materialize (tail.map Col.materialize) =
      multiPath S fname c0 tail := by
  cases c0 with
  | arr a => rfl
  | constArr e n => rfl
  | constLowCard i d n => rfl
  | flat v => rfl
  | fn cf =>
    show multiPath S fname (.fn cf) (tail.map Col.materialize) = _
    simp only [multiPath, List.length_map]
    rw [show (tail.map Col.materialize).take
        (tail.length - (if S.isFolding = true then 1 else 0))
        = (tail.take (tail.length - (if S.isFolding = true then 1 else 0))).map
          Col.materialize from (List.map_take Col.materialize tail _).symm]
    rw [normalizeArrays_materialize fname _]
    cases normalizeArrays fname
        (tail.take (tail.length - (if S.isFolding = true then 1 else 0))) with
    | error e => rfl
    | ok pr =>
      dsimp only
      rw [getLastD_map_flat tail, flatVals_materialize]

/-- C7: dictionary-encoded or constant-wrapped array arguments are resolved
during normalization, and any call produces results (and traces) identical to
the same call with every array argument replaced by its materialized
plain-array equivalent. -/
theorem c7_materialize_equivalence (S : Strategy) (fname : String) (args : List Col) :
    executeImpl S fname (args.map Col.materialize) = executeImpl S fname args := by
  cases args with
  | nil => rfl
  | cons c0 tail =>
    cases tail with
    | nil =>
      show singlePath S c0.materialize = singlePath S c0
      cases c0 <;> rfl
    | cons c1 t2 =>
      show multiPath S fname c0.materialize ((c1 :: t2).map Col.materialize) =
        multiPath S fname c0 (c1 :: t2)
      exact multiPath_materialize S fname c0 (c1 :: t2)

/-- C1 (code bug): on the block with one row `[1, 2]` and seed `0`, the fold
path replicates the closure over the full block offsets (two copies) in its
first inner iteration while binding length-1 argument slices, so evaluation
fails with a closure-binding size mismatch instead of producing the
specified left fold, whose contract gives `[3]`. -/
theorem c1_fold_contract_code_bug :
    (executeImpl foldStrategy "arrayFold"
      [.fn (cfAdd 1), .arr ⟨[1, 2], [2]⟩, .flat [0]]).1 =
      .error (.undefined "reduce: captured column sizes do not match") ∧
    specContractFold addClosure [[1, 2]] [0] = some [3] ∧
    (executeImpl foldStrategy "arrayFold"
      [.fn (cfAdd 1), .arr ⟨[1], [1]⟩, .flat [5]]).1 = .ok [6] ∧
    specContractFold addClosure [[1]] [5] = some [6] := ⟨rfl, rfl, rfl, rfl⟩

/-- C2 (code bug): on the block with rows `[[], [1]]` and seeds `[10, 0]`, the
very first row has zero elements, the inner loop never runs, and the source
reads `(*res)[0]` from the never-assigned `res` (a null dereference) instead of
propagating the seed `10`; the specified contract gives `[10, 1]`. -/
theorem c2_zero_element_row_code_bug :
    (executeImpl foldStrategy "arrayFold"
      [.fn (cfAdd 2), .arr ⟨[1], [0, 1]⟩, .flat [10, 0]]).1 =
      .error (.undefined "fold: read of uninitialized res on zero-element row") ∧
    specContractFold addClosure [[], [1]] [10, 0] = some [10, 1] := ⟨rfl, rfl⟩

/-- C3 (code bug): an inner fold iteration replicates the closure over the
whole block's canonical offsets — producing one copy per total element (here
2), not one copy from a length-1 offsets sequence — while binding length-1
argument slices, so the block with rows `[[1], [2]]` and seeds `[0, 10]` fails
in its very first iteration; the specified per-iteration behaviour would give
`[1, 12]`. -/
theorem c3_inner_iteration_code_bug :
    (executeImpl foldStrategy "arrayFold"
      [.fn (cfAdd 2), .arr ⟨[1, 2], [1, 2]⟩, .flat [0, 10]]).1 =
      .error (.undefined "reduce: captured column sizes do not match") ∧
    ((cfAdd 2).replicate [1, 2]).map (fun rep => rep.fns.length) = some 2 ∧
    specContractFold addClosure [[1], [2]] [0, 10] = some [1, 12] := ⟨rfl, rfl, rfl⟩

/-- C8 (code bug): every execution path writes diagnostic tracing to the
standard error stream — already the three header lines on the shortest
(single-argument) path, and additional per-row and per-iteration lines on the
fold path — contradicting the claim that no path produces tracing output. -/
theorem c8_diagnostic_tracing :
    (executeImpl mapStrategy "arrayMap" [.arr ⟨[1, 2, 3], [3]⟩]).2 = traceHeader ∧
    traceHeader ≠ [] ∧
    (executeImpl foldStrategy "arrayFold"
      [.fn (cfAdd 1), .arr ⟨[1], [1]⟩, .flat [5]]).2 =
      traceHeader ++ traceMid ++ ["  --- row  ---", "  ----- iteration  ------"] :=
  ⟨rfl, fun h => List.noConfusion h, rfl⟩

/-- C5 (counterexample): a fold block of two empty rows with seeds `[10, 20]`
does not return the seed column unchanged. -/
theorem c5_seed_return_counterexample :
    (executeImpl foldStrategy "arrayFold"
      [.fn (cfAdd 2), .arr ⟨[], [0, 0]⟩, .flat [10, 20]]).1 ≠ .ok [10, 20] := by
  intro h
  rw [show (executeImpl foldStrategy "arrayFold"
      [.fn (cfAdd 2), .arr ⟨[], [0, 0]⟩, .flat [10, 20]]).1 =
      .error (.undefined "reduce: captured column sizes do not match") from rfl] at h
  exact Except.noConfusion h

theorem broadcastEval_zero_copies (S : Strategy) (cf : ColumnFunction)
    (first : ArrayColumn) (cols : List (List Value)) (c : List Value)
    (hfns : cf.fns.length = first.offsets.length)
    (hcap : cf.captured = [])
    (hoff : (offsetCounts first.offsets 0).sum = 0)
    (hc : c ∈ cols) (hcne : c ≠ []) :
    broadcastEval S cf first cols =
      .error (.undefined "reduce: captured column sizes do not match") := by
  unfold broadcastEval ColumnFunction.replicate
  rw [if_pos hfns]
  dsimp only
  unfold ColumnFunction.reduce ColumnFunction.appendArguments
  dsimp only
  rw [hcap]
  dsimp only [List.map_nil, List.nil_append]
  rw [show (replicateByOffsets cf.fns first.offsets).length = 0 from
    (replicateByOffsets_length cf.fns first.offsets hfns).trans hoff]
  rw [if_neg (fun h => hcne (List.length_eq_zero.mp (h c hc)))]

/-- C5 (amended): the decision to skip the row-wise fold path tests the first
array's total element count, never the first row's emptiness alone.  A fold
block whose total element count over every row is zero skips the row-wise fold
and falls through to the flat broadcast evaluation — which does not return the
seed column unchanged: with a nonempty seed column it fails when binding the
full-length seed column against zero closure copies.  Conversely a block whose
first row is empty but whose total element count is positive still enters the
row-wise fold path, observable by its distinct uninitialized-`res` failure. -/
theorem c5_total_count_skip (S : Strategy) (fname : String) (cf : ColumnFunction)
    (a1 : ArrayColumn) (seed : List Value)
    (hfold : S.isFolding = true)
    (hfns : cf.fns.length = a1.offsets.length)
    (hcap : cf.captured = [])
    (hdata : a1.data = [])
    (hoff : (offsetCounts a1.offsets 0).sum = 0)
    (hseed : seed ≠ []) :
    (executeImpl S fname [.fn cf, .arr a1, .flat seed]).1 =
      .error (.undefined "reduce: captured column sizes do not match") ∧
    (executeImpl foldStrategy fname
      [.fn (cfAdd 3), .arr ⟨[1, 2], [0, 1, 2]⟩, .flat [10, 0, 5]]).1 =
      .error (.undefined "fold: read of uninitialized res on zero-element row") := by
  refine ⟨?_, rfl⟩
  obtain ⟨data, offs⟩ := a1
  dsimp only at hdata hfns hoff
  subst hdata
  show (multiPath S fname (.fn cf) [.arr ⟨[], offs⟩, .flat seed]).1 = _
  simp only [multiPath]
  rw [hfold]
  show (finishBroadcast S cf ⟨[], offs⟩ ([([] : List Value)] ++ [seed])).1 = _
  rw [finishBroadcast_fst]
  exact broadcastEval_zero_copies S cf ⟨[], offs⟩ _ seed hfns hcap hoff
    (by simp) hseed

/-- Witness for C5 (amended): the concrete total-zero block of two empty rows
with seeds `[10, 20]`. -/
theorem c5_total_count_skip_witness :
    (executeImpl foldStrategy "arrayFold"
      [.fn (cfAdd 2), .arr ⟨[], [0, 0]⟩, .flat [10, 20]]).1 =
      .error (.undefined "reduce: captured column sizes do not match") := by
  exact (c5_total_count_skip foldStrategy "arrayFold" (cfAdd 2) ⟨[], [0, 0]⟩
    [10, 20] rfl rfl rfl rfl rfl (fun h => List.noConfusion h)).1

end FunctionArrayMapped
